import Mathlib

/-!
Verification of the dosage-formatting program `medication.py`.

The program defines three record types (`TabletDosage`, `InfusionDosage`,
`Medication`), a closed union `Dosage` over the two dosage records, two pure
formatting functions `formatDosage` and `format`, and an entry point that
builds two literal `Medication` values and prints their formatted forms.

The embedding below mirrors the source.  Python `int` fields become `ℤ`,
`str` becomes `String`, and the `float` field becomes `ℚ` carrying the
exact value of an IEEE-754 binary64 number (every finite Python float is a
dyadic rational, hence a rational).  Python renders a float in an f-string
with `repr`, the shortest decimal string that parses back to the same
float; that algorithm is embedded here over `ℕ`/`ℤ` arithmetic on the
numerator and denominator (`pyFloatRepr`), covering finite floats.  The
entry point is embedded as a state-threading function from the empty
output stream to the final list of printed lines.
-/

namespace Med

/-- Character for the decimal digit `n` (meaningful for `n < 10`). -/
def digitChar (n : ℕ) : Char := Char.ofNat (48 + n)

/-- Decimal digit characters of `n`, most significant first; `fuel` bounds
the recursion and is sufficient whenever `n < 10 ^ fuel`. -/
def decChars : ℕ → ℕ → List Char
  | 0, _ => []
  | fuel + 1, n =>
    if n < 10 then [digitChar n]
    else decChars fuel (n / 10) ++ [digitChar (n % 10)]

/-- Decimal string of a natural number, as Python `str` renders an `int`:
plain base-10 digits, no padding, no separators. -/
def decStr (n : ℕ) : String := String.mk (decChars (n + 1) n)

/-- Decimal string of an integer, as Python `str` renders an `int`:
a minus sign for negatives, then the plain digits. -/
def decStrInt (n : ℤ) : String :=
  if n < 0 then "-" ++ decStr n.natAbs else decStr n.natAbs

/-- String of `n` zero characters. -/
def zeroStr (n : ℕ) : String := String.mk (List.replicate n '0')

/-- Floor logarithm of `n` in base `b`, by repeated division; `fuel`
bounds the recursion and is sufficient whenever `n ≤ fuel`. -/
def natLogF (b : ℕ) : ℕ → ℕ → ℕ
  | 0, _ => 0
  | fuel + 1, n => if n < b then 0 else natLogF b fuel (n / b) + 1

/-- Ceiling logarithm of `n` in base `b`, by repeated ceiling division;
`fuel` bounds the recursion and is sufficient whenever `n ≤ fuel`. -/
def natClogF (b : ℕ) : ℕ → ℕ → ℕ
  | 0, _ => 0
  | fuel + 1, n => if n ≤ 1 then 0 else natClogF b fuel ((n + b - 1) / b) + 1

/-- Floor logarithm in base `b` of the positive rational `p / q`:
the unique `e` with `b ^ e ≤ p / q < b ^ (e + 1)`. -/
def ratLogNN (b p q : ℕ) : ℤ :=
  if q ≤ p then (natLogF b p (p / q) : ℤ)
  else -(natClogF b ((q + p - 1) / p) ((q + p - 1) / p) : ℤ)

/-- Round the rational `a / b` to the nearest natural number, breaking
ties to the even neighbour (the IEEE-754 default rounding). -/
def rheNat (a b : ℕ) : ℕ :=
  let f := a / b
  let r := a % b
  if 2 * r < b then f
  else if b < 2 * r then f + 1
  else if f % 2 = 0 then f else f + 1

/-- Round the positive rational `p / q` to the IEEE-754 binary64 grid:
the result `(m, t)` denotes `m * 2 ^ t`.  The quantum exponent is
`e - 52` in the normal range and `-1074` in the subnormal range, where
`e` is the floor base-2 logarithm of `p / q`. -/
def roundB64NN (p q : ℕ) : ℕ × ℤ :=
  let e := ratLogNN 2 p q
  let t := max (e - 52) (-1074)
  let m := if 0 ≤ t then rheNat p (q * 2 ^ t.toNat) else rheNat (p * 2 ^ (-t).toNat) q
  (m, t)

/-- Whether the binary64 value `mt.1 * 2 ^ mt.2` equals the rational
`p / q`, by cross multiplication. -/
def eqB64p (mt : ℕ × ℤ) (p q : ℕ) : Bool :=
  if 0 ≤ mt.2 then mt.1 * 2 ^ mt.2.toNat * q == p else mt.1 * q == p * 2 ^ (-mt.2).toNat

/-- The rational `x` is the exact value of a finite IEEE-754 binary64
number: rounding `|x|` to the binary64 grid gives `|x|` back, and `|x|`
is below the overflow threshold `2 ^ 1024`.  (Zero rounds to zero, so
`isFloat64 0` holds; NaN and the infinities have no rational value and
are outside the model.) -/
def isFloat64 (x : ℚ) : Prop :=
  eqB64p (roundB64NN x.num.natAbs x.den) x.num.natAbs x.den = true ∧
    x.num.natAbs < 2 ^ 1024 * x.den

/-- Candidate decimal significand for the positive rational `p / q` with
`d` significant digits: round `p / q` to the decimal grid of step
`10 ^ (L - d + 1)` where `L` is its floor base-10 logarithm.  The result
`(k, e)` denotes `k * 10 ^ (e - d + 1)` with `10 ^ (d - 1) ≤ k < 10 ^ d`;
when rounding overflows to `10 ^ d` the significand is renormalised to
`10 ^ (d - 1)` with `e` bumped by one. -/
def rawDigits (p q : ℕ) (d : ℕ) : ℕ × ℤ :=
  let L := ratLogNN 10 p q
  let s := L - d + 1
  let k := if 0 ≤ s then rheNat p (q * 10 ^ s.toNat) else rheNat (p * 10 ^ (-s).toNat) q
  if k = 10 ^ d then (10 ^ (d - 1), L + 1) else (k, L)

/-- Whether the `d`-digit candidate decimal for `p / q` parses back (by
binary64 nearest rounding, as Python `float` of a decimal string does) to
exactly `p / q`. -/
def roundTrips (p q d : ℕ) : Bool :=
  let r := rawDigits p q d
  let s := r.2 - d + 1
  if 0 ≤ s then eqB64p (roundB64NN (r.1 * 10 ^ s.toNat) 1) p q
  else eqB64p (roundB64NN r.1 (10 ^ (-s).toNat)) p q

/-- Shortest round-tripping decimal for `p / q`, scanning digit counts
upward from `d`; `fuel` bounds the scan.  When the fuel is exhausted the
candidate at the current digit count is taken unconditionally, which
matches the 17-digit cap of the Python algorithm: 17 digits always round
trip for an actual binary64 value. -/
def shortestFrom (p q : ℕ) : ℕ → ℕ → ℕ × ℤ
  | d, 0 => rawDigits p q d
  | d, fuel + 1 => if roundTrips p q d then rawDigits p q d else shortestFrom p q (d + 1) fuel

/-- Shortest round-tripping decimal significand and exponent for `p / q`,
trying 1 up to 17 significant digits. -/
def shortestDigits (p q : ℕ) : ℕ × ℤ := shortestFrom p q 1 16

/-- Fixed-point rendering of the digits `ds` with decimal exponent `e`
(the leading digit has place value `10 ^ e`), as CPython writes it:
an integral value gets the digits, then padding zeros, then `".0"`;
otherwise the point is placed inside or a `"0."` prefix with leading
zeros is used. -/
def fixedStr (ds : List Char) (e : ℤ) : String :=
  if (ds.length : ℤ) - 1 ≤ e then
    String.mk ds ++ zeroStr (e - ds.length + 1).toNat ++ ".0"
  else if 0 ≤ e then
    String.mk (ds.take (e.toNat + 1)) ++ "." ++ String.mk (ds.drop (e.toNat + 1))
  else
    "0." ++ zeroStr ((-e).toNat - 1) ++ String.mk ds

/-- Scientific rendering of the digits `ds` with decimal exponent `e`, as
CPython writes it: the first digit, a point and the rest when there is
more than one digit, then `"e"`, an explicit sign, and the exponent
padded to at least two digits. -/
def sciStr (ds : List Char) (e : ℤ) : String :=
  let mant := match ds with
    | [] => "0"
    | [c] => String.mk [c]
    | c :: rest => String.mk [c, '.'] ++ String.mk rest
  let eds := decStr e.natAbs
  mant ++ "e" ++ (if e < 0 then "-" else "+") ++ (if e.natAbs < 10 then "0" ++ eds else eds)

/-- Python `repr` of the positive rational `p / q` seen as a binary64
value: shortest round-tripping decimal digits, rendered fixed when the
decimal exponent lies in `[-4, 16)` and scientific otherwise (CPython
uses scientific when the number of digits before the point would exceed
16 or the value is below `10 ^ (-4)`). -/
def pyReprNN (p q : ℕ) : String :=
  let r := shortestDigits p q
  let ds := decChars (r.1 + 1) r.1
  if -4 ≤ r.2 ∧ r.2 < 16 then fixedStr ds r.2 else sciStr ds r.2

/-- Python `repr`/`str` of the float with exact rational value `x`
(an f-string renders a float this way): `"0.0"` for zero, a minus sign
then the positive rendering for negatives. -/
def pyFloatRepr (x : ℚ) : String :=
  if x.num = 0 then "0.0"
  else if x.num < 0 then "-" ++ pyReprNN x.num.natAbs x.den
  else pyReprNN x.num.natAbs x.den

/-- Dataclass `TabletDosage`: three integer dose counts. -/
structure TabletDosage where
  morning : ℤ
  midday : ℤ
  evening : ℤ
deriving DecidableEq

/-- Dataclass `InfusionDosage`: a float speed (exact rational value of
the binary64 number) and an integer duration. -/
structure InfusionDosage where
  speed : ℚ
  duration : ℤ
deriving DecidableEq

/-- The closed union `type Dosage = TabletDosage | InfusionDosage`. -/
inductive Dosage where
  | tablet : TabletDosage → Dosage
  | infusion : InfusionDosage → Dosage
deriving DecidableEq

/-- Dataclass `Medication`: a drug name and a dosage. -/
structure Medication where
  drugName : String
  dosage : Dosage
deriving DecidableEq

/-- The source `formatDosage`: match on the variant; a tablet dosage
renders as the three counts hyphen-joined, an infusion dosage as the
speed, `" ml/min for "`, the duration and `"h"`. -/
def formatDosage : Dosage → String
  | .tablet t => decStrInt t.morning ++ "-" ++ decStrInt t.midday ++ "-" ++ decStrInt t.evening
  | .infusion i => pyFloatRepr i.speed ++ " ml/min for " ++ decStrInt i.duration ++ "h"

/-- The source `format`: the drug name, `": "`, then the formatted
dosage. -/
def format (m : Medication) : String :=
  m.drugName ++ ": " ++ formatDosage m.dosage

/-- State-threading embedding of a call `format(m)` with output stream
`out`: the body of `format` is a single return of an f-string, with no
assignment and no print statement, so it returns the formatted string and
passes the medication value and the output stream through unchanged. -/
def formatRun (m : Medication) (out : List String) : String × Medication × List String :=
  (m.drugName ++ ": " ++ formatDosage m.dosage, m, out)

/-- The source literal `paracetamol = Medication("Paracetamol", TabletDosage(1, 0, 2))`. -/
def paracetamol : Medication :=
  Medication.mk "Paracetamol" (Dosage.tablet (TabletDosage.mk 1 0 2))

/-- The source literal `infliximab = Medication("Infliximab", InfusionDosage(1.5, 2))`;
the float literal `1.5` is exactly the binary64 value `3 / 2`. -/
def infliximab : Medication :=
  Medication.mk "Infliximab" (Dosage.infusion (InfusionDosage.mk (Rat.divInt 3 2) 2))

/-- A `print` call: append one line to the output stream. -/
def printLine (out : List String) (s : String) : List String := out ++ [s]

/-- The entry point: construct the two literal medications, print
`format(paracetamol)` then `format(infliximab)`, and finish.  The result
pairs the final values of the two medications with the final output
stream; the run is a total function, so the script reaches its end
without raising and exits with success status, and writes nothing but
these lines. -/
def mainRun : (Medication × Medication) × List String :=
  let p := paracetamol
  let i := infliximab
  let r₁ := formatRun p []
  let o₁ := printLine r₁.2.2 r₁.1
  let r₂ := formatRun i o₁
  let o₂ := printLine r₂.2.2 r₂.1
  ((r₁.2.1, r₂.2.1), o₂)

/-- The string `s` ends with the two characters `c₁ c₂`. -/
def endsWith2 (s : String) (c₁ c₂ : Char) : Prop :=
  s.data.drop (s.data.length - 2) = [c₁, c₂]

instance (x : ℚ) : Decidable (isFloat64 x) := by
  unfold isFloat64
  exact inferInstance

instance (s : String) (c₁ c₂ : Char) : Decidable (endsWith2 s c₁ c₂) := by
  unfold endsWith2
  exact inferInstance

/-- A significand-exponent pair in good fixed-integral shape: the decimal
exponent lies in `[0, 16)`, and the significand has some digit count `d`
with `d - 1` at most the exponent, so that fixed rendering ends in
`".0"`. -/
def goodPair (r : ℕ × ℤ) : Prop :=
  0 ≤ r.2 ∧ r.2 < 16 ∧
    ∃ d : ℕ, 1 ≤ d ∧ ((d : ℤ) - 1 ≤ r.2) ∧ 10 ^ (d - 1) ≤ r.1 ∧ r.1 < 10 ^ d

theorem natLogF_spec {b : ℕ} (hb : 2 ≤ b) :
    ∀ fuel n, 1 ≤ n → n ≤ fuel →
      b ^ natLogF b fuel n ≤ n ∧ n < b ^ (natLogF b fuel n + 1) := by
  intro fuel
  induction fuel with
  | zero => intro n h1 h0; omega
  | succ fuel ih =>
    intro n h1 hle
    by_cases hnb : n < b
    · have h0 : natLogF b (fuel + 1) n = 0 := by simp [natLogF, hnb]
      rw [h0]
      constructor
      · simpa using h1
      · simpa using hnb
    · have hbn : b ≤ n := le_of_not_lt hnb
      have hq1 : 1 ≤ n / b := (Nat.one_le_div_iff (by omega)).2 hbn
      have hqf : n / b ≤ fuel := by
        have : n / b < n := Nat.div_lt_self (by omega) (by omega)
        omega
      obtain ⟨hlo, hhi⟩ := ih (n / b) hq1 hqf
      have heq : natLogF b (fuel + 1) n = natLogF b fuel (n / b) + 1 := by
        simp [natLogF, hnb]
      rw [heq]
      constructor
      · calc b ^ (natLogF b fuel (n / b) + 1)
            = b ^ natLogF b fuel (n / b) * b := by rw [pow_succ]
          _ ≤ (n / b) * b := Nat.mul_le_mul_right b hlo
          _ ≤ n := Nat.div_mul_le_self n b
      · have hmod : n < (n / b + 1) * b := by
          have h₁ := Nat.div_add_mod n b
          have h₂ := Nat.mod_lt n (show 0 < b by omega)
          nlinarith
        calc n < (n / b + 1) * b := hmod
          _ ≤ b ^ (natLogF b fuel (n / b) + 1) * b := Nat.mul_le_mul_right b hhi
          _ = b ^ (natLogF b fuel (n / b) + 1 + 1) := by ring

theorem natLogF_lt_16 {n : ℕ} (h1 : 1 ≤ n) (h16 : n < 10 ^ 16) :
    natLogF 10 n n < 16 := by
  by_contra h
  have h' : 16 ≤ natLogF 10 n n := le_of_not_lt h
  have hlo := (natLogF_spec (b := 10) (by norm_num) n n h1 le_rfl).1
  have : (10 : ℕ) ^ 16 ≤ 10 ^ natLogF 10 n n :=
    Nat.pow_le_pow_of_le (a := 10) (by norm_num) h'
  omega

theorem rheNat_one (a : ℕ) : rheNat a 1 = a := by
  simp [rheNat, Nat.mod_one]

theorem rheNat_cases (a b : ℕ) : rheNat a b = a / b ∨ rheNat a b = a / b + 1 := by
  simp only [rheNat]
  split
  · exact Or.inl rfl
  split
  · exact Or.inr rfl
  split
  · exact Or.inl rfl
  · exact Or.inr rfl

theorem rheNat_ge (a b : ℕ) : a / b ≤ rheNat a b := by
  rcases rheNat_cases a b with h | h <;> omega

theorem rheNat_le (a b : ℕ) : rheNat a b ≤ a / b + 1 := by
  rcases rheNat_cases a b with h | h <;> omega

theorem decChars_length :
    ∀ fuel n d, n < fuel → 1 ≤ d → 10 ^ (d - 1) ≤ n → n < 10 ^ d →
      (decChars fuel n).length = d := by
  intro fuel
  induction fuel with
  | zero => intro n d h; omega
  | succ fuel ih =>
    intro n d hf hd hlo hhi
    by_cases hn : n < 10
    · have hd1 : d = 1 := by
        by_contra hne
        have h2 : (10 : ℕ) ^ 1 ≤ 10 ^ (d - 1) :=
          Nat.pow_le_pow_of_le (by norm_num) (by omega)
        simp at h2
        omega
      subst hd1
      simp [decChars, hn]
    · have h10 : 10 ≤ n := le_of_not_lt hn
      have hd2 : 2 ≤ d := by
        by_contra h
        have hdd : d = 1 := by omega
        subst hdd
        simp at hhi
        omega
      have hstep1 : (10 : ℕ) ^ (d - 2) * 10 = 10 ^ (d - 1) := by
        rw [← pow_succ]
        congr 1
        omega
      have hstep2 : (10 : ℕ) ^ (d - 1) * 10 = 10 ^ d := by
        rw [← pow_succ]
        congr 1
        omega
      have hq1 : 10 ^ (d - 2) ≤ n / 10 := by
        rw [Nat.le_div_iff_mul_le (by norm_num)]
        omega
      have hq2 : n / 10 < 10 ^ (d - 1) := by
        rw [Nat.div_lt_iff_lt_mul (by norm_num)]
        omega
      have hqf : n / 10 < fuel := by
        have : n / 10 < n := Nat.div_lt_self (by omega) (by norm_num)
        omega
      have hrec := ih (n / 10) (d - 1) hqf (by omega)
        (by rw [show d - 1 - 1 = d - 2 from by omega]; exact hq1) hq2
      simp [decChars, hn, hrec]
      omega

theorem string_append_data (a b : String) : (a ++ b).data = a.data ++ b.data := rfl

theorem endsWith2_of_data {s : String} {t : List Char} {c₁ c₂ : Char}
    (h : s.data = t ++ [c₁, c₂]) : endsWith2 s c₁ c₂ := by
  unfold endsWith2
  rw [h, List.length_append]
  simp

theorem ratLogNN_int (n : ℕ) (h1 : 1 ≤ n) :
    ratLogNN 10 n 1 = (natLogF 10 n n : ℤ) := by
  simp [ratLogNN, h1]

theorem rawDigits_int (n d : ℕ) (h1 : 1 ≤ n) (hd1 : 1 ≤ d)
    (hdl : d ≤ natLogF 10 n n + 1) :
    rawDigits n 1 d =
      if rheNat n (10 ^ (natLogF 10 n n + 1 - d)) = 10 ^ d
      then (10 ^ (d - 1), (natLogF 10 n n : ℤ) + 1)
      else (rheNat n (10 ^ (natLogF 10 n n + 1 - d)), (natLogF 10 n n : ℤ)) := by
  have hs0 : (0 : ℤ) ≤ (natLogF 10 n n : ℤ) - (d : ℤ) + 1 := by omega
  have htn : ((natLogF 10 n n : ℤ) - (d : ℤ) + 1).toNat = natLogF 10 n n + 1 - d := by
    omega
  simp only [rawDigits, ratLogNN_int n h1, if_pos hs0, htn, one_mul]

theorem rawDigits_int_top (n : ℕ) (h1 : 1 ≤ n) :
    rawDigits n 1 (natLogF 10 n n + 1) = (n, (natLogF 10 n n : ℤ)) := by
  obtain ⟨hlo, hhi⟩ := natLogF_spec (b := 10) (by norm_num) n n h1 le_rfl
  rw [rawDigits_int n (natLogF 10 n n + 1) h1 (by omega) le_rfl]
  rw [show natLogF 10 n n + 1 - (natLogF 10 n n + 1) = 0 from by omega, pow_zero,
    rheNat_one]
  rw [if_neg (by omega)]

theorem roundTrips_int_top (n : ℕ) (h1 : 1 ≤ n) :
    roundTrips n 1 (natLogF 10 n n + 1) = eqB64p (roundB64NN n 1) n 1 := by
  simp only [roundTrips, rawDigits_int_top n h1]
  have hs : (natLogF 10 n n : ℤ) - (↑(natLogF 10 n n + 1) : ℤ) + 1 = 0 := by
    push_cast
    ring
  rw [hs]
  norm_num

theorem rawDigits_int_shape (n d : ℕ) (h1 : 1 ≤ n) (h16 : n < 10 ^ 16) (hd1 : 1 ≤ d)
    (hdl : d ≤ natLogF 10 n n + 1) (hrt : roundTrips n 1 d = true) :
    goodPair (rawDigits n 1 d) := by
  obtain ⟨hlo, hhi⟩ := natLogF_spec (b := 10) (by norm_num) n n h1 le_rfl
  have hl16 : natLogF 10 n n < 16 := natLogF_lt_16 h1 h16
  by_cases hbump : rheNat n (10 ^ (natLogF 10 n n + 1 - d)) = 10 ^ d
  · by_cases hl14 : natLogF 10 n n ≤ 14
    · rw [rawDigits_int n d h1 hd1 hdl, if_pos hbump]
      refine ⟨by omega, by omega, d, hd1, by omega, le_rfl, ?_⟩
      exact Nat.pow_lt_pow_of_lt (by norm_num) (by omega)
    · exfalso
      have hl15 : natLogF 10 n n = 15 := by omega
      have hraw : rawDigits n 1 d = (10 ^ (d - 1), (natLogF 10 n n : ℤ) + 1) := by
        rw [rawDigits_int n d h1 hd1 hdl, if_pos hbump]
      simp only [roundTrips, hraw] at hrt
      have hs : (0 : ℤ) ≤ (natLogF 10 n n : ℤ) + 1 - (d : ℤ) + 1 := by omega
      rw [if_pos hs] at hrt
      have htn : ((natLogF 10 n n : ℤ) + 1 - (d : ℤ) + 1).toNat =
          natLogF 10 n n + 2 - d := by omega
      rw [htn] at hrt
      have hpow : 10 ^ (d - 1) * 10 ^ (natLogF 10 n n + 2 - d) =
          10 ^ (natLogF 10 n n + 1) := by
        rw [← pow_add]
        congr 1
        omega
      rw [hpow, hl15] at hrt
      have hcomp : roundB64NN (10 ^ (15 + 1)) 1 = (5000000000000000, 1) := by decide
      rw [hcomp] at hrt
      simp [eqB64p] at hrt
      have h16' : (10 : ℕ) ^ 16 = 10000000000000000 := by norm_num
      omega
  · rw [rawDigits_int n d h1 hd1 hdl, if_neg hbump]
    have hpow1 : 10 ^ (d - 1) * 10 ^ (natLogF 10 n n + 1 - d) =
        10 ^ natLogF 10 n n := by
      rw [← pow_add]
      congr 1
      omega
    have hpow2 : 10 ^ d * 10 ^ (natLogF 10 n n + 1 - d) =
        10 ^ (natLogF 10 n n + 1) := by
      rw [← pow_add]
      congr 1
      omega
    have hklo : 10 ^ (d - 1) ≤ rheNat n (10 ^ (natLogF 10 n n + 1 - d)) := by
      refine le_trans ?_ (rheNat_ge _ _)
      rw [Nat.le_div_iff_mul_le (Nat.pos_pow_of_pos _ (by norm_num))]
      omega
    have hkhi : rheNat n (10 ^ (natLogF 10 n n + 1 - d)) < 10 ^ d := by
      have hdiv : n / 10 ^ (natLogF 10 n n + 1 - d) < 10 ^ d := by
        rw [Nat.div_lt_iff_lt_mul (Nat.pos_pow_of_pos _ (by norm_num))]
        omega
      have := rheNat_le n (10 ^ (natLogF 10 n n + 1 - d))
      omega
    exact ⟨by omega, by omega, d, hd1, by omega, hklo, hkhi⟩

theorem shortestFrom_shape (n : ℕ) (h1 : 1 ≤ n) (h16 : n < 10 ^ 16)
    (hfl : eqB64p (roundB64NN n 1) n 1 = true) :
    ∀ fuel d, 1 ≤ d → d ≤ natLogF 10 n n + 1 → natLogF 10 n n + 1 ≤ d + fuel →
      goodPair (shortestFrom n 1 d fuel) := by
  intro fuel
  induction fuel with
  | zero =>
    intro d hd1 hdl hge
    obtain ⟨hlo, hhi⟩ := natLogF_spec (b := 10) (by norm_num) n n h1 le_rfl
    have hl16 : natLogF 10 n n < 16 := natLogF_lt_16 h1 h16
    have hdeq : d = natLogF 10 n n + 1 := by omega
    subst hdeq
    show goodPair (rawDigits n 1 (natLogF 10 n n + 1))
    rw [rawDigits_int_top n h1]
    refine ⟨by omega, by omega, natLogF 10 n n + 1, by omega,
      by omega, ?_, hhi⟩
    rw [show natLogF 10 n n + 1 - 1 = natLogF 10 n n from by omega]
    exact hlo
  | succ fuel ih =>
    intro d hd1 hdl hge
    simp only [shortestFrom]
    by_cases hrt : roundTrips n 1 d = true
    · rw [if_pos hrt]
      exact rawDigits_int_shape n d h1 h16 hd1 hdl hrt
    · rw [if_neg hrt]
      have hdne : d ≠ natLogF 10 n n + 1 := by
        intro hde
        exact hrt (by rw [hde, roundTrips_int_top n h1]; exact hfl)
      exact ih (d + 1) (by omega) (by omega) (by omega)

theorem pyReprNN_int_data (n : ℕ) (h1 : 1 ≤ n) (h16 : n < 10 ^ 16)
    (hfl : eqB64p (roundB64NN n 1) n 1 = true) :
    ∃ t : List Char, (pyReprNN n 1).data = t ++ ['.', '0'] := by
  have hgp : goodPair (shortestDigits n 1) :=
    shortestFrom_shape n h1 h16 hfl 16 1 le_rfl
      (by omega) (by have := natLogF_lt_16 h1 h16; omega)
  rcases hsd : shortestDigits n 1 with ⟨k, e⟩
  rw [hsd] at hgp
  obtain ⟨he0, he16, d, hd1, hde, hklo, hkhi⟩ := hgp
  simp only at he0 he16 hde hklo hkhi
  have hlen : (decChars (k + 1) k).length = d :=
    decChars_length (k + 1) k d (by omega) hd1 hklo hkhi
  simp only [pyReprNN, hsd]
  rw [if_pos ⟨by omega, he16⟩]
  unfold fixedStr
  rw [hlen]
  rw [if_pos hde]
  exact ⟨decChars (k + 1) k ++
    List.replicate (e - (d : ℤ) + 1).toNat '0', by simp [string_append_data, zeroStr, hlen]⟩

/-- Claim C1: for every Medication `m`, `format m` is exactly the drug
name, then a colon and a space, then `formatDosage` of `m`'s dosage; in
particular on `Medication "Paracetamol" (Tablet 1 0 2)` it returns
exactly `"Paracetamol: 1-0-2"`. -/
theorem C1_format_shape :
    (∀ m : Medication, format m = m.drugName ++ ": " ++ formatDosage m.dosage) ∧
      format (Medication.mk "Paracetamol" (Dosage.tablet (TabletDosage.mk 1 0 2))) =
        "Paracetamol: 1-0-2" :=
  ⟨fun _ => rfl, by decide⟩

/-- Claim C2: for every TabletDosage, `formatDosage` returns the three
counts hyphen-joined, each rendered as a plain decimal integer with no
padding and no locale formatting; in particular on counts 1, 0, 2 it
returns exactly `"1-0-2"`. -/
theorem C2_tablet_shape :
    (∀ t : TabletDosage, formatDosage (Dosage.tablet t) =
        decStrInt t.morning ++ "-" ++ decStrInt t.midday ++ "-" ++ decStrInt t.evening) ∧
      formatDosage (Dosage.tablet (TabletDosage.mk 1 0 2)) = "1-0-2" :=
  ⟨fun _ => rfl, by decide⟩

/-- Claim C3: for every InfusionDosage, `formatDosage` returns the speed
in Python's natural numeric textual form (`pyFloatRepr`), then
`" ml/min for "`, the duration as an integer, and `"h"`; in particular on
speed 1.5 (the rational 3/2) and duration 2 it returns exactly
`"1.5 ml/min for 2h"`. -/
theorem C3_infusion_shape :
    (∀ i : InfusionDosage, formatDosage (Dosage.infusion i) =
        pyFloatRepr i.speed ++ " ml/min for " ++ decStrInt i.duration ++ "h") ∧
      formatDosage (Dosage.infusion (InfusionDosage.mk (Rat.divInt 3 2) 2)) =
        "1.5 ml/min for 2h" :=
  ⟨fun _ => rfl, by decide⟩

/-- Claim C4: the entry point constructs the two fixed medications and
writes exactly two lines to standard output, line 1
`"Paracetamol: 1-0-2"` and line 2 `"Infliximab: 1.5 ml/min for 2h"`;
`mainRun` is a total function from the empty output stream, so the run
performs no other I/O and reaches the end of the script, exiting with
success status. -/
theorem C4_entry_output :
    mainRun.2 = ["Paracetamol: 1-0-2", "Infliximab: 1.5 ml/min for 2h"] ∧
      mainRun.2.length = 2 :=
  ⟨by decide, by decide⟩

/-- Claim C5: for every value of the closed union `Dosage`,
`formatDosage` terminates (it is a total function) and returns a
non-empty string; both variants are handled by the match, which has no
default branch and no error case. -/
theorem C5_total_nonempty : ∀ d : Dosage, 0 < (formatDosage d).length := by
  intro d
  cases d with
  | tablet t =>
    show 0 < (decStrInt t.morning ++ "-" ++ decStrInt t.midday ++ "-" ++
      decStrInt t.evening).length
    simp only [String.length_append]
    have hh : 0 < "-".length := by decide
    omega
  | infusion i =>
    show 0 < (pyFloatRepr i.speed ++ " ml/min for " ++ decStrInt i.duration ++ "h").length
    simp only [String.length_append]
    have hh : 0 < " ml/min for ".length := by decide
    omega

/-- Claim C6: `format` is observationally deterministic and idempotent:
calling it a second time on the value and stream returned by a first call
on the same medication yields the identical string. -/
theorem C6_idempotent : ∀ (m : Medication) (out : List String),
    (formatRun m out).1 = (formatRun (formatRun m out).2.1 (formatRun m out).2.2).1 :=
  fun _ _ => rfl

/-- Claim C7: `format` (with the `formatDosage` it calls) is pure: a call
returns exactly `format m`, writes nothing to the output stream, and
leaves the medication value (with its dosage) unchanged; printing is done
separately by the entry point. -/
theorem C7_pure : ∀ (m : Medication) (out : List String),
    formatRun m out = (format m, m, out) :=
  fun _ _ => rfl

/-- Claim C8: the three record values are constructed once at startup
from literal data, and the full run of the program leaves both
medication values (hence their nested dosage records) exactly as
constructed: no field of any instance is ever mutated. -/
theorem C8_immutable :
    mainRun.1 = (paracetamol, infliximab) ∧
      paracetamol = Medication.mk "Paracetamol" (Dosage.tablet (TabletDosage.mk 1 0 2)) ∧
      infliximab = Medication.mk "Infliximab"
        (Dosage.infusion (InfusionDosage.mk (Rat.divInt 3 2) 2)) :=
  ⟨rfl, rfl, rfl⟩

/-- Claim C9: equality on the three record types is structural: two
values compare equal exactly when all corresponding fields are equal
(there is no object identity in play). -/
theorem C9_structural_eq :
    (∀ t t' : TabletDosage, t = t' ↔
        t.morning = t'.morning ∧ t.midday = t'.midday ∧ t.evening = t'.evening) ∧
      (∀ i i' : InfusionDosage, i = i' ↔ i.speed = i'.speed ∧ i.duration = i'.duration) ∧
      (∀ m m' : Medication, m = m' ↔ m.drugName = m'.drugName ∧ m.dosage = m'.dosage) := by
  refine ⟨?_, ?_, ?_⟩ <;> intro a b <;> cases a <;> cases b <;> simp

/-- Claim C10 (amended): for every InfusionDosage whose speed is an
integral finite float of magnitude below `10 ^ 16`, `formatDosage`
renders the speed with a trailing `".0"` (never as a bare integer);
integral floats of magnitude `10 ^ 16` and above are rendered in
scientific notation instead. -/
theorem C10_integral_trailing_zero (v : ℚ) (dur : ℤ) (hden : v.den = 1)
    (hfl : isFloat64 v) (hlt : v.num.natAbs < 10 ^ 16) :
    formatDosage (Dosage.infusion (InfusionDosage.mk v dur)) =
        pyFloatRepr v ++ " ml/min for " ++ decStrInt dur ++ "h" ∧
      endsWith2 (pyFloatRepr v) '.' '0' := by
  refine ⟨rfl, ?_⟩
  unfold pyFloatRepr
  by_cases h0 : v.num = 0
  · rw [if_pos h0]
    decide
  · have hna : 1 ≤ v.num.natAbs := by
      have := Int.natAbs_pos.2 h0
      omega
    have hfl' : eqB64p (roundB64NN v.num.natAbs 1) v.num.natAbs 1 = true := by
      have := hfl.1
      rwa [hden] at this
    obtain ⟨t, ht⟩ := pyReprNN_int_data v.num.natAbs hna hlt hfl'
    by_cases hneg : v.num < 0
    · rw [if_neg h0, if_pos hneg, hden]
      refine endsWith2_of_data (t := '-' :: t) ?_
      rw [string_append_data, ht]
      rfl
    · rw [if_neg h0, if_neg hneg, hden]
      exact endsWith2_of_data ht

set_option maxRecDepth 10000 in
/-- Claim C10, counterexample to the original statement: the speed
`10 ^ 16` is an integral finite float, yet `formatDosage` renders it as
`"1e+16"`, in scientific notation with no trailing `".0"`. -/
theorem C10_counterexample :
    (10000000000000000 : ℚ).den = 1 ∧ isFloat64 (10000000000000000 : ℚ) ∧
      formatDosage (Dosage.infusion (InfusionDosage.mk (10000000000000000 : ℚ) 3)) =
        "1e+16 ml/min for 3h" ∧
      ¬ endsWith2 (pyFloatRepr (10000000000000000 : ℚ)) '.' '0' :=
  ⟨by decide, by decide, by decide, by decide⟩

set_option maxRecDepth 10000 in
/-- Claim C10, witness for the amended statement at speed `5.0` and
duration 3. -/
theorem C10_witness :
    formatDosage (Dosage.infusion (InfusionDosage.mk (5 : ℚ) 3)) =
        pyFloatRepr (5 : ℚ) ++ " ml/min for " ++ decStrInt 3 ++ "h" ∧
      endsWith2 (pyFloatRepr (5 : ℚ)) '.' '0' :=
  C10_integral_trailing_zero (5 : ℚ) 3 (by decide) (by decide) (by decide)

end Med
